import Mathlib

/-
Verification of the response-interpretation layer in src/parse.rs of
rust-imap (mtorromeo fork).

Shallow embedding: the external tokenizer (imap_proto::parse_response,
driven by nom) is an out-of-scope collaborator, so a raw byte buffer is
presented to the embedded walkers as the stream the tokenizer would
produce from it: a list of structured records followed by either a clean
end of buffer (`none`) or a tokenizer failure carrying the unparsed
remainder bytes (`some bs`).  All functions are translated directly from
src/parse.rs; byte payloads are `List Nat`, text is `List Char`.
-/

namespace Imap

/-- Completion status of a tagged/untagged status response
(imap_proto::Status). -/
inductive Status where
  | Ok
  | No
  | Bad
  | PreAuth
  | Bye
deriving DecidableEq

/-- Response codes inspected by parse_mailbox (imap_proto::ResponseCode);
codes the source ignores with a wildcard arm are collapsed into
`OtherCode`. -/
inductive ResponseCode where
  | UidValidity (n : Nat)
  | UidNext (n : Nat)
  | Unseen (n : Nat)
  | PermanentFlags (flags : List String)
  | OtherCode
deriving DecidableEq

/-- Mailbox data records (imap_proto::MailboxDatum); the source's matches
on this type are exhaustive over exactly these six constructors. -/
inductive MailboxDatum where
  | Status
  | Exists (n : Nat)
  | Recent (n : Nat)
  | Flags (flags : List String)
  | List (flags : List String) (delimiter : String) (name : String)
  | SubList (flags : List String) (delimiter : String) (name : String)
deriving DecidableEq

/-- Per-message fetch attributes (imap_proto::AttributeValue): the five
kinds parse_fetches handles, plus representatives of the kinds its
wildcard arm ignores. -/
inductive AttributeValue where
  | Flags (flags : List String)
  | Uid (uid : Nat)
  | Rfc822 (rfc : Option String)
  | Rfc822Header (rfc : Option String)
  | BodySection («section» : Option String) (index : Option Nat) (data : Option String)
  | Envelope
  | InternalDate (date : String)
  | Rfc822Size (n : Nat)
deriving DecidableEq

/-- One tokenized protocol record (imap_proto::Response). -/
inductive Response where
  | Capabilities (caps : List String)
  | Data (status : Status) (code : Option ResponseCode)
  | Done (status : Status)
  | Continue
  | Expunge (n : Nat)
  | Fetch (num : Nat) (attrs : List AttributeValue)
  | MailboxData (d : MailboxDatum)
deriving DecidableEq

/-- Modelled from the spec: error.rs is not under src/.  Spec section 7
lists the parse-error kinds constructed in parse.rs: a malformed-input
error carrying the offending remainder bytes, and an authentication
format error carrying the original line. -/
inductive ParseError where
  | Invalid (bytes : List Nat)
  | Authentication (line : List Char)
deriving DecidableEq

/-- Modelled from the spec: error.rs is not under src/.  Spec section 7:
errors are either parse errors or an "unexpected response" error carrying
the offending record (the target of `resp.into()` in parse.rs). -/
inductive Error where
  | Parse (e : ParseError)
  | Unexpected (r : Response)
deriving DecidableEq

/-- Mailbox listing entry (super::types::Name), built field-for-field from
a List/SubList mailbox-data record in parse_names. -/
structure Name where
  attributes : List String
  delimiter : String
  name : String
deriving DecidableEq

/-- Accumulated per-message fetch data (super::types::Fetch), with the
initial field values written out in parse_fetches. -/
structure Fetch where
  message : Nat
  flags : List String
  uid : Option Nat
  rfc822_header : Option String
  rfc822 : Option String
  body : Option String
deriving DecidableEq

/-- Capability set (super::types::Capabilities): a set of capability
strings; the HashSet is modelled as the list of strings inserted, with
`has` the membership test. -/
structure Capabilities where
  caps : List String
deriving DecidableEq

/-- Case-sensitive membership test of a capability set. -/
def Capabilities.has (c : Capabilities) (s : String) : Bool :=
  c.caps.contains s

/-- Mailbox status snapshot (super::types::Mailbox) with its Default
values: counts 0, options empty, lists empty. -/
structure Mailbox where
  flags : List String := []
  «exists» : Nat := 0
  recent : Nat := 0
  unseen : Option Nat := none
  permanent_flags : List String := []
  uid_validity : Option Nat := none
  uid_next : Option Nat := none
deriving DecidableEq

/-- The authenticate-continuation pattern of parse_authenticate_response.
The source compiles the pattern string with '^', an UNESCAPED '+', a
dot-star capture group, then a carriage return and line feed.  The '+'
is therefore a repetition operator applied to the '^' anchor, not a
literal plus sign, so the compiled pattern is equivalent to: anchored at
the start of the text, capture a run of non-line-feed characters, then
require a carriage return and line feed.  (The regex crate contemporary
with this source rejects a quantified anchor outright, making the
`.unwrap()` panic; this model uses the semantics of engines that accept
quantified anchors, which is the reading most favourable to the source.)
Since the capture cannot contain a line feed, the line feed consumed by
the pattern is necessarily the first one in the text, so the match is
unique: the text up to the first line feed must end with a carriage
return and everything before that carriage return is the capture. -/
def authCaptureAux (acc : List Char) : List Char → Option (List Char)
  | [] => none
  | c :: rest =>
    if c = '\n' then
      match acc with
      | '\r' :: acc' => some acc'.reverse
      | _ => none
    else authCaptureAux (c :: acc) rest

/-- First (unique) match of the authenticate-continuation pattern. -/
def authCapture (line : List Char) : Option (List Char) :=
  authCaptureAux [] line

/-- parse_authenticate_response from src/parse.rs: return the capture of
the authenticate pattern, otherwise an Authentication parse error
carrying the original line. -/
def parse_authenticate_response (line : List Char) : Except Error (List Char) :=
  match authCapture line with
  | some d => .ok d
  | none => .error (.Parse (.Authentication line))

/-- Unicode White_Space code points: the character class matched by a
whitespace escape in the search regex and trimmed by str::trim. -/
def wsCodes : List Nat :=
  [9, 10, 11, 12, 13, 32, 133, 160, 5760,
   8192, 8193, 8194, 8195, 8196, 8197, 8198, 8199, 8200, 8201, 8202,
   8232, 8233, 8239, 8287, 12288]

/-- Whitespace test used by the search regex and by trimming. -/
def isWs (c : Char) : Bool :=
  wsCodes.contains c.toNat

/-- ASCII decimal digit test: the character class 0-9 of the search
regex. -/
def isDigit (c : Char) : Bool :=
  48 ≤ c.toNat && c.toNat ≤ 57

/-- Decimal value of a digit string, most significant digit first. -/
def digitsVal (t : List Char) : Nat :=
  t.foldl (fun a c => a * 10 + (c.toNat - 48)) 0

/-- str::parse::<u32> on a token: an optional leading plus sign, then one
or more ASCII digits, with the value required to fit in 32 bits
(overflow is a parse error). -/
def parseU32 (t : List Char) : Option Nat :=
  let digits := match t with
    | '+' :: r => r
    | r => r
  if !digits.isEmpty && digits.all isDigit then
    if digitsVal digits < 4294967296 then some (digitsVal digits) else none
  else none

/-- Drop the trailing whitespace run of a character list. -/
def dropTrailingWs (l : List Char) : List Char :=
  (l.reverse.dropWhile isWs).reverse

/-- str::trim: drop the leading and trailing whitespace runs. -/
def trimChars (l : List Char) : List Char :=
  dropTrailingWs (l.dropWhile isWs)

/-- str::split(' '): split on every single space character; the empty
string yields one empty token. -/
def splitOnSpace : List Char → List (List Char)
  | [] => [[]]
  | c :: rest =>
    if c = ' ' then [] :: splitOnSpace rest
    else
      match splitOnSpace rest with
      | [] => [[c]]
      | t :: ts => (c :: t) :: ts

/-- A character allowed after the SEARCH literal: whitespace or an ASCII
digit. -/
def wsOrDigit (c : Char) : Bool :=
  isWs c || isDigit c

/-- The first character is whitespace (vacuously true for the empty
list). -/
def headWs : List Char → Bool
  | [] => true
  | c :: _ => isWs c

/-- Tail of the search pattern after the star-space-SEARCH head: zero or
more groups of whitespace-run-then-digit-run, then optional trailing
whitespace, to the end of the text.  Over the two character classes this
is exactly: every character is whitespace or a digit, and the first
character (if any) is whitespace (a digit run can never start the tail,
and runs may regroup freely otherwise). -/
def tailOk (l : List Char) : Bool :=
  l.all wsOrDigit && headWs l

/-- Unicode simple case folding as far as it can reach the letters of
the SEARCH literal, which is how the case-insensitivity flag compares a
haystack character against a pattern letter.  The only non-ASCII
characters whose simple case fold is an ASCII letter are U+017F LATIN
SMALL LETTER LONG S (folds to s) and U+212A KELVIN SIGN (folds to k);
every other character folds to its ASCII lowercase form if it is an
ASCII letter and otherwise to some non-ASCII character, which can never
equal an ASCII pattern letter. -/
def searchFold (c : Char) : Char :=
  if c.toNat = 383 then 's'
  else if c.toNat = 8490 then 'k'
  else c.toLower

/-- The search regex of parse_search_ids: anchored star, space, the
literal SEARCH compared under simple case folding, then the id groups
and trailing whitespace to the end of text.  Returns the capture group:
everything from after SEARCH through the last digit (the whole tail
stripped of its trailing whitespace run). -/
def searchCapture (line : List Char) : Option (List Char) :=
  match line with
  | '*' :: ' ' :: c1 :: c2 :: c3 :: c4 :: c5 :: c6 :: rest =>
    if searchFold c1 = 's' ∧ searchFold c2 = 'e' ∧ searchFold c3 = 'a' ∧
       searchFold c4 = 'r' ∧ searchFold c5 = 'c' ∧ searchFold c6 = 'h' then
      if tailOk rest then some (dropTrailingWs rest) else none
    else none
  | _ => none

/-- parse_search_ids from src/parse.rs: interpret the bytes as text
(inputs here are text already, so the UTF-8 check of the source cannot
fail in this model), match the search regex, then trim the capture,
split it on single spaces, and keep the tokens that parse as 32-bit
integers; a non-matching line is an Invalid parse error carrying the
input bytes. -/
def parse_search_ids (line : List Char) : Except Error (List Nat) :=
  match searchCapture line with
  | some cap =>
      .ok ((splitOnSpace (trimChars cap)).filterMap fun t => parseU32 (trimChars t))
  | none => .error (.Parse (.Invalid (line.map Char.toNat)))

/-- Classification result handed back by a mapper to the generic walker
(enum MapOrNot in src/parse.rs). -/
inductive MapOrNot (T : Type) where
  | Map (t : T)
  | Not (r : Response)
  | Ignore

/-- The unilateral-response filter of parse_many (the match on the four
record kinds under the Not arm): recent-count update, exists-count
update, message-fetch push, expunge notification. -/
def unilateral : Response → Bool
  | .MailboxData (.Recent _) => true
  | .MailboxData (.Exists _) => true
  | .Fetch _ _ => true
  | .Expunge _ => true
  | _ => false

/-- parse_many from src/parse.rs over the tokenizer's stream of the
buffer: while the remaining buffer is nonempty, tokenize one record and
classify it; Map appends, Ignore skips, Not skips when the record is
unilateral and otherwise aborts with an Unexpected error; a tokenizer
failure aborts with an Invalid error carrying the remainder bytes. -/
def parse_many {T : Type} (map : Response → MapOrNot T) :
    List Response → Option (List Nat) → Except Error (List T)
  | [], none => .ok []
  | [], some bs => .error (.Parse (.Invalid bs))
  | r :: rest, junk =>
    match map r with
    | .Map t =>
      match parse_many map rest junk with
      | .ok ts => .ok (t :: ts)
      | .error e => .error e
    | .Not resp =>
      if unilateral resp then parse_many map rest junk
      else .error (.Unexpected resp)
    | .Ignore => parse_many map rest junk

/-- The classification function parse_names passes to parse_many: a
List or SubList mailbox-data record maps to a Name built from its
fields; every other record is Not. -/
def nameStep : Response → MapOrNot Name
  | .MailboxData (.List flags delimiter name) => .Map ⟨flags, delimiter, name⟩
  | .MailboxData (.SubList flags delimiter name) => .Map ⟨flags, delimiter, name⟩
  | r => .Not r

/-- parse_names from src/parse.rs.  (The zero-copy wrapper around the
returned vector only couples lifetimes and is not modelled.) -/
def parse_names (resps : List Response) (junk : Option (List Nat)) :
    Except Error (List Name) :=
  parse_many nameStep resps junk

/-- The per-attribute fold step of parse_fetches: Flags extends the
accumulated flag list, Uid stores the id, Rfc822 / Rfc822Header /
BodySection store their payloads, and every other attribute kind is
ignored by the wildcard arm. -/
def foldAttr (f : Fetch) : AttributeValue → Fetch
  | .Flags flags => { f with flags := f.flags ++ flags }
  | .Uid uid => { f with uid := some uid }
  | .Rfc822 rfc => { f with rfc822 := rfc }
  | .Rfc822Header rfc => { f with rfc822_header := rfc }
  | .BodySection _ _ data => { f with body := data }
  | _ => f

/-- Building one Fetch from a fetch record in parse_fetches: start from
the written-out initial value and fold the attribute list. -/
def buildFetch (num : Nat) (attrs : List AttributeValue) : Fetch :=
  attrs.foldl foldAttr
    { message := num, flags := [], uid := none,
      rfc822_header := none, rfc822 := none, body := none }

/-- The classification function parse_fetches passes to parse_many. -/
def fetchStep : Response → MapOrNot Fetch
  | .Fetch num attrs => .Map (buildFetch num attrs)
  | r => .Not r

/-- parse_fetches from src/parse.rs. -/
def parse_fetches (resps : List Response) (junk : Option (List Nat)) :
    Except Error (List Fetch) :=
  parse_many fetchStep resps junk

/-- The fold loop of parse_capabilities: tokenize one record with no
prior emptiness check; a Capabilities record extends the running set and
the loop returns it once the remaining buffer is empty; any other record
aborts with an Unexpected error, and a tokenizer failure (including the
one on an already-empty buffer) aborts with an Invalid error. -/
def capsLoop (acc : List String) :
    List Response → Option (List Nat) → Except Error Capabilities
  | [], none => .error (.Parse (.Invalid []))
  | [], some bs => .error (.Parse (.Invalid bs))
  | .Capabilities cs :: rest, junk =>
    match rest, junk with
    | [], none => .ok ⟨acc ++ cs⟩
    | rest, junk => capsLoop (acc ++ cs) rest junk
  | r :: _, _ => .error (.Unexpected r)

/-- parse_capabilities from src/parse.rs: the fold loop started on an
empty capability set. -/
def parse_capabilities (resps : List Response) (junk : Option (List Nat)) :
    Except Error Capabilities :=
  capsLoop [] resps junk

/-- Outcome of parse_mailbox: a returned snapshot, a returned error, or
the unrecoverable fault raised by the `unreachable!()` macro. -/
inductive MOutcome where
  | ok (mb : Mailbox)
  | err (e : Error)
  | fault
deriving DecidableEq

/-- Folding a response code of an OK status line into the mailbox
snapshot (the match on `code` in parse_mailbox). -/
def applyCode (mb : Mailbox) : Option ResponseCode → Mailbox
  | some (.UidValidity uid) => { mb with uid_validity := some uid }
  | some (.UidNext unext) => { mb with uid_next := some unext }
  | some (.Unseen n) => { mb with unseen := some n }
  | some (.PermanentFlags flags) =>
      { mb with permanent_flags := mb.permanent_flags ++ flags }
  | _ => mb

/-- Folding a mailbox-data record into the mailbox snapshot (the match
on `m` in parse_mailbox). -/
def applyDatum (mb : Mailbox) : MailboxDatum → Mailbox
  | .Status => mb
  | .Exists e => { mb with «exists» := e }
  | .Recent r => { mb with recent := r }
  | .Flags flags => { mb with flags := mb.flags ++ flags }
  | .SubList _ _ _ => mb
  | .List _ _ _ => mb

/-- The fold loop of parse_mailbox: tokenize one record with no prior
emptiness check; a Data record must carry the Ok status (any other
status hits `unreachable!()`, modelled as the fault outcome) and its
response code is folded in; a MailboxData record is folded in; any
other record aborts with an Unexpected error; a tokenizer failure
aborts with an Invalid error; the snapshot is returned once the
remaining buffer is empty. -/
def mailboxLoop (mb : Mailbox) :
    List Response → Option (List Nat) → MOutcome
  | [], none => .err (.Parse (.Invalid []))
  | [], some bs => .err (.Parse (.Invalid bs))
  | .Data s code :: rest, junk =>
    match s with
    | .Ok =>
      match rest, junk with
      | [], none => .ok (applyCode mb code)
      | rest, junk => mailboxLoop (applyCode mb code) rest junk
    | _ => .fault
  | .MailboxData m :: rest, junk =>
    match rest, junk with
    | [], none => .ok (applyDatum mb m)
    | rest, junk => mailboxLoop (applyDatum mb m) rest junk
  | r :: _, _ => .err (.Unexpected r)

/-- parse_mailbox from src/parse.rs: the fold loop started on the
default snapshot. -/
def parse_mailbox (resps : List Response) (junk : Option (List Nat)) : MOutcome :=
  mailboxLoop {} resps junk

/-- Test for a fetch record. -/
def isFetchResp : Response → Bool
  | .Fetch _ _ => true
  | _ => false

/-- Test for a capability record. -/
def isCapResp : Response → Bool
  | .Capabilities _ => true
  | _ => false

/-- Capability list carried by a record (empty for non-capability
records). -/
def capClist : Response → List String
  | .Capabilities cs => cs
  | _ => []

/-- The fetch attribute kinds handled by named arms of the attribute
fold in parse_fetches; every other kind falls into its wildcard arm. -/
def handledAttr : AttributeValue → Bool
  | .Flags _ => true
  | .Uid _ => true
  | .Rfc822 _ => true
  | .Rfc822Header _ => true
  | .BodySection _ _ _ => true
  | _ => false

/-- The four unilateral record kinds of RFC 3501 section 7 listed by the
filter in parse_many, as a shape predicate on records. -/
def isUnilateralKind (r : Response) : Prop :=
  (∃ n, r = Response.MailboxData (MailboxDatum.Recent n)) ∨
  (∃ n, r = Response.MailboxData (MailboxDatum.Exists n)) ∨
  (∃ num attrs, r = Response.Fetch num attrs) ∨
  (∃ n, r = Response.Expunge n)

/-- A classifier that maps nothing: every record is handed back as Not.
Used to exercise the walker's unilateral filter in isolation. -/
def notStep (r : Response) : MapOrNot Nat :=
  MapOrNot.Not r

/-- A well-formed id token of the search line: a nonempty digit run
whose value fits in 32 bits. -/
def goodTok (t : List Char) : Prop :=
  t ≠ [] ∧ t.all isDigit = true ∧ digitsVal t < 4294967296

instance (t : List Char) : Decidable (goodTok t) := by
  unfold goodTok
  infer_instance

/-- Render id tokens as the tail of a search line: one space before
each token. -/
def joinToks (ts : List (List Char)) : List Char :=
  (ts.map (fun t => ' ' :: t)).flatten

/-- Render a full search line: the required star-space marker, a
rendering `lit` of the SEARCH literal (any case variant), then the id
tokens each preceded by one space. -/
def searchRender (lit : List Char) (ts : List (List Char)) : List Char :=
  '*' :: ' ' :: (lit ++ joinToks ts)

/-- The boolean unilateral filter of parse_many accepts exactly the four
record shapes of RFC 3501 section 7. -/
theorem unilateral_iff (r : Response) : unilateral r = true ↔ isUnilateralKind r := by
  unfold isUnilateralKind
  cases r with
  | MailboxData d => cases d <;> simp [unilateral]
  | Capabilities cs => simp [unilateral]
  | Data s c => simp [unilateral]
  | Done s => simp [unilateral]
  | Continue => simp [unilateral]
  | Expunge n => simp [unilateral]
  | Fetch num attrs => simp [unilateral]

/-- A digit character is not whitespace. -/
theorem isDigit_not_ws (c : Char) (h : isDigit c = true) : isWs c = false := by
  simp only [isDigit, Bool.and_eq_true, decide_eq_true_eq] at h
  have hnot : c.toNat ∉ wsCodes := by
    intro hm
    simp only [wsCodes, List.mem_cons, List.not_mem_nil, or_false] at hm
    omega
  simpa [isWs] using hnot

/-- The last element of a list belongs to it. -/
theorem getLast?_some_mem {l : List Char} {d : Char} (h : l.getLast? = some d) : d ∈ l := by
  obtain ⟨hne, rfl⟩ := List.mem_getLast?_eq_getLast (show d ∈ l.getLast? from by rw [h]; rfl)
  exact List.getLast_mem hne

/-- Stripping trailing whitespace is the identity when the last
character is not whitespace. -/
theorem dropTrailingWs_eq_self (l : List Char)
    (hl : ∀ d, l.getLast? = some d → isWs d = false) : dropTrailingWs l = l := by
  cases hrev : l.reverse with
  | nil =>
    have hnil : l = [] := by simpa using congrArg List.reverse hrev
    simp [dropTrailingWs, hnil]
  | cons d t =>
    have hd : l.getLast? = some d := by
      rw [← List.head?_reverse, hrev]; rfl
    have hws := hl d hd
    rw [dropTrailingWs, hrev]
    simp only [List.dropWhile_cons, hws, Bool.false_eq_true, if_false]
    rw [← hrev, List.reverse_reverse]

/-- Unfolding one rendered token. -/
theorem joinToks_cons (t : List Char) (ts : List (List Char)) :
    joinToks (t :: ts) = ' ' :: (t ++ joinToks ts) := by
  simp [joinToks]

/-- The last character of a nonempty-token tail is a digit. -/
theorem tokTail_getLast_digit (t : List Char) (ts : List (List Char))
    (ht : t ≠ [] ∧ t.all isDigit = true)
    (hts : ∀ x ∈ ts, x ≠ [] ∧ x.all isDigit = true) :
    ∀ d, (t ++ joinToks ts).getLast? = some d → isDigit d = true := by
  induction ts generalizing t with
  | nil =>
    intro d hd
    rw [show joinToks [] = [] from rfl, List.append_nil] at hd
    exact List.all_eq_true.mp ht.2 d (getLast?_some_mem hd)
  | cons t2 ts2 ih =>
    intro d hd
    rw [joinToks_cons] at hd
    rw [List.getLast?_append_of_ne_nil t (by simp)] at hd
    rw [show (' ' :: (t2 ++ joinToks ts2)) = [' '] ++ (t2 ++ joinToks ts2) from rfl] at hd
    have hne : (t2 ++ joinToks ts2) ≠ [] := by
      have h2 := (hts t2 (by simp)).1
      simp only [ne_eq, List.append_eq_nil, not_and]
      intro h1
      exact absurd h1 h2
    rw [List.getLast?_append_of_ne_nil [' '] hne] at hd
    exact ih t2 (hts t2 (by simp)) (fun x hx => hts x (by simp [hx])) d hd

/-- The last character of a rendered nonempty-token tail is a digit. -/
theorem joinToks_getLast_digit (ts : List (List Char))
    (hts : ∀ x ∈ ts, x ≠ [] ∧ x.all isDigit = true) :
    ∀ d, (joinToks ts).getLast? = some d → isDigit d = true := by
  cases ts with
  | nil => intro d hd; simp [joinToks] at hd
  | cons t ts =>
    intro d hd
    rw [joinToks_cons,
      show (' ' :: (t ++ joinToks ts)) = [' '] ++ (t ++ joinToks ts) from rfl] at hd
    have hne : (t ++ joinToks ts) ≠ [] := by
      have h1 := (hts t (by simp)).1
      simp only [ne_eq, List.append_eq_nil, not_and]
      intro h2
      exact absurd h2 h1
    rw [List.getLast?_append_of_ne_nil [' '] hne] at hd
    exact tokTail_getLast_digit t ts (hts t (by simp)) (fun x hx => hts x (by simp [hx])) d hd

/-- A rendered digit-token tail passes the pattern-tail test. -/
theorem tailOk_joinToks (ts : List (List Char))
    (hts : ∀ x ∈ ts, x.all isDigit = true) : tailOk (joinToks ts) = true := by
  induction ts with
  | nil => rfl
  | cons t ts ih =>
    have ht := hts t (by simp)
    have hrest := ih (fun x hx => hts x (by simp [hx]))
    rw [joinToks_cons]
    simp only [tailOk, List.all_cons, List.all_append, Bool.and_eq_true, headWs] at *
    refine ⟨⟨by decide, ?_, hrest.1⟩, by decide⟩
    rw [List.all_eq_true] at ht ⊢
    intro x hx
    simp [wsOrDigit, ht x hx]

/-- A digit token contains no space character. -/
theorem space_not_mem_digits (t : List Char) (h : t.all isDigit = true) : ' ' ∉ t := by
  intro hm
  have := List.all_eq_true.mp h ' ' hm
  simp [isDigit] at this

/-- Trimming a rendered tail removes exactly its single leading
space. -/
theorem trimChars_joinToks (t : List Char) (ts : List (List Char))
    (hts : ∀ x ∈ t :: ts, x ≠ [] ∧ x.all isDigit = true) :
    trimChars (joinToks (t :: ts)) = t ++ joinToks ts := by
  rw [joinToks_cons, trimChars]
  have hdw : (' ' :: (t ++ joinToks ts)).dropWhile isWs = (t ++ joinToks ts).dropWhile isWs := by
    simp [List.dropWhile_cons, show isWs ' ' = true from rfl]
  rw [hdw]
  obtain ⟨hne, hall⟩ := hts t (by simp)
  cases t with
  | nil => exact absurd rfl hne
  | cons c t' =>
    have hc : isDigit c = true := List.all_eq_true.mp hall c (by simp)
    rw [show ((c :: t') ++ joinToks ts).dropWhile isWs = (c :: t') ++ joinToks ts from by
      simp [List.dropWhile_cons, isDigit_not_ws c hc]]
    exact dropTrailingWs_eq_self _
      (fun d hd => isDigit_not_ws d
        (tokTail_getLast_digit (c :: t') ts ⟨hne, hall⟩
          (fun x hx => hts x (by simp [hx])) d hd))

/-- Splitting on spaces leaves a space-free list whole. -/
theorem splitOnSpace_no_space (t : List Char) (h : ' ' ∉ t) : splitOnSpace t = [t] := by
  induction t with
  | nil => rfl
  | cons c t ih =>
    have hc : c ≠ ' ' := fun hceq => h (by simp [hceq])
    have ht : ' ' ∉ t := fun hm => h (by simp [hm])
    simp [splitOnSpace, hc, ih ht]

/-- Splitting at the first space of a space-free head. -/
theorem splitOnSpace_append (t rest : List Char) (h : ' ' ∉ t) :
    splitOnSpace (t ++ ' ' :: rest) = t :: splitOnSpace rest := by
  induction t with
  | nil => simp [splitOnSpace]
  | cons c t ih =>
    have hc : c ≠ ' ' := fun hceq => h (by simp [hceq])
    have ht : ' ' ∉ t := fun hm => h (by simp [hm])
    simp [splitOnSpace, hc, ih ht]

/-- Splitting a trimmed rendered tail recovers exactly the tokens. -/
theorem splitOnSpace_tok_join (t : List Char) (ts : List (List Char))
    (h : ∀ x ∈ t :: ts, x.all isDigit = true) :
    splitOnSpace (t ++ joinToks ts) = t :: ts := by
  induction ts generalizing t with
  | nil =>
    rw [show joinToks [] = [] from rfl, List.append_nil]
    exact splitOnSpace_no_space t (space_not_mem_digits t (h t (by simp)))
  | cons t2 ts2 ih =>
    rw [joinToks_cons]
    rw [splitOnSpace_append t _ (space_not_mem_digits t (h t (by simp)))]
    rw [ih t2 (fun x hx => h x (by simp at hx ⊢; tauto))]

/-- Trimming a digit token is the identity. -/
theorem trimChars_digits (t : List Char) (h : t.all isDigit = true) : trimChars t = t := by
  have hdw : t.dropWhile isWs = t := by
    cases t with
    | nil => rfl
    | cons c t' =>
      have hc : isDigit c = true := List.all_eq_true.mp h c (by simp)
      simp [List.dropWhile_cons, isDigit_not_ws c hc]
  rw [trimChars, hdw]
  exact dropTrailingWs_eq_self t
    (fun d hd => isDigit_not_ws d (List.all_eq_true.mp h d (getLast?_some_mem hd)))

/-- The u32 parser accepts a nonempty digit run whose value fits. -/
theorem parseU32_digits (t : List Char) (h1 : t ≠ []) (h2 : t.all isDigit = true)
    (h3 : digitsVal t < 4294967296) : parseU32 t = some (digitsVal t) := by
  cases t with
  | nil => exact absurd rfl h1
  | cons c t' =>
    have hc : isDigit c = true := List.all_eq_true.mp h2 c (by simp)
    have hcp : c ≠ '+' := by
      intro hceq
      rw [hceq] at hc
      simp [isDigit] at hc
    simp [parseU32, hcp, h2, h3]

/-- Trim-then-parse maps good tokens to their values. -/
theorem filterMap_goodToks (ts : List (List Char)) (h : ∀ t ∈ ts, goodTok t) :
    (ts.filterMap fun t => parseU32 (trimChars t)) = ts.map digitsVal := by
  induction ts with
  | nil => rfl
  | cons t ts ih =>
    obtain ⟨h1, h2, h3⟩ := h t (by simp)
    rw [List.filterMap_cons, trimChars_digits t h2, parseU32_digits t h1 h2 h3]
    simp [ih (fun x hx => h x (by simp [hx]))]

/-- C1: the authenticate-continuation extractor is specified to return
Ok("abc123") on "+abc123" followed by a line terminator and an error on
every line not led by a literal plus sign.  The source's pattern leaves
the plus sign unescaped, so it quantifies the start anchor instead of
requiring a plus: the capture retains the leading plus character, and a
line with no plus at all is also accepted.  (With the regex crate
contemporary to this source the quantified anchor does not even
compile and the unwrap panics on every call.) -/
theorem parse_authenticate_response_keeps_plus :
    parse_authenticate_response ( "+abc123\r\n".toList) = Except.ok ( "+abc123".toList) ∧
    parse_authenticate_response ( "noplus\r\n".toList) = Except.ok ( "noplus".toList) :=
  ⟨rfl, rfl⟩

/-- C2 counterexample: three concrete inputs refuting the claim as
stated, one per respect in which it fails.  (1) The claim calls the
leading star-space marker optional, so "SEARCH 1" falls under it and
should yield [1]; the pattern requires the marker, so the line is an
Invalid parse error.  (2) "* SEARCH 1" followed by a tab and "2" is a
marker, the SEARCH literal and the whitespace-separated integers 1 and
2, so the claim demands [1,2]; the code splits the capture on single
spaces only and the tab-joined token fails u32 parsing and is silently
dropped, yielding [].  (3) "* SEARCH 4294967296" should yield
[4294967296] under the claim; u32 parsing rejects the overflowing
value and the code silently drops it, yielding []. -/
theorem parse_search_ids_claim_failures :
    parse_search_ids ( "SEARCH 1".toList) =
      Except.error (Error.Parse (ParseError.Invalid (( "SEARCH 1".toList).map Char.toNat))) ∧
    parse_search_ids ( "* SEARCH 1\t2".toList) = Except.ok [] ∧
    parse_search_ids ( "* SEARCH 4294967296".toList) = Except.ok [] :=
  ⟨rfl, rfl, rfl⟩

/-- C2 amended: with the star-space marker required (it is not
optional), a line of the marker, any case-folded variant of the SEARCH
literal, and zero or more single-space-separated digit runs whose
values fit in 32 bits yields exactly those values in order; and a line
rejected by the pattern (such as the claim's "* JUNK" instance) yields
an Invalid error carrying the line. -/
theorem parse_search_ids_marker_required (lit : List Char) (ts : List (List Char))
    (hlit : lit.map searchFold = ['s', 'e', 'a', 'r', 'c', 'h'])
    (h : ∀ t ∈ ts, goodTok t) :
    parse_search_ids (searchRender lit ts) = Except.ok (ts.map digitsVal) ∧
    (∀ line, searchCapture line = none →
      parse_search_ids line = Except.error (Error.Parse (ParseError.Invalid (line.map Char.toNat)))) ∧
    parse_search_ids ( "* JUNK".toList) =
      Except.error (Error.Parse (ParseError.Invalid (( "* JUNK".toList).map Char.toNat))) := by
  refine ⟨?_, ?_, rfl⟩
  · obtain ⟨c1, c2, c3, c4, c5, c6, rfl, h1, h2, h3, h4, h5, h6⟩ :
        ∃ c1 c2 c3 c4 c5 c6, lit = [c1, c2, c3, c4, c5, c6] ∧
          searchFold c1 = 's' ∧ searchFold c2 = 'e' ∧ searchFold c3 = 'a' ∧
          searchFold c4 = 'r' ∧ searchFold c5 = 'c' ∧ searchFold c6 = 'h' := by
      cases lit with
      | nil => simp at hlit
      | cons c1 l1 =>
      cases l1 with
      | nil => simp at hlit
      | cons c2 l2 =>
      cases l2 with
      | nil => simp at hlit
      | cons c3 l3 =>
      cases l3 with
      | nil => simp at hlit
      | cons c4 l4 =>
      cases l4 with
      | nil => simp at hlit
      | cons c5 l5 =>
      cases l5 with
      | nil => simp at hlit
      | cons c6 l6 =>
      cases l6 with
      | cons c7 l7 => simp at hlit
      | nil =>
        simp only [List.map_cons, List.map_nil, List.cons.injEq, and_true] at hlit
        exact ⟨c1, c2, c3, c4, c5, c6, rfl, hlit.1, hlit.2.1, hlit.2.2.1,
          hlit.2.2.2.1, hlit.2.2.2.2.1, hlit.2.2.2.2.2⟩
    have hall : ∀ x ∈ ts, x.all isDigit = true := fun x hx => (h x hx).2.1
    have hne : ∀ x ∈ ts, x ≠ [] := fun x hx => (h x hx).1
    have hdrop : dropTrailingWs (joinToks ts) = joinToks ts :=
      dropTrailingWs_eq_self _
        (fun d hd => isDigit_not_ws d
          (joinToks_getLast_digit ts (fun x hx => ⟨hne x hx, hall x hx⟩) d hd))
    have hsome : searchCapture (searchRender [c1, c2, c3, c4, c5, c6] ts) =
        some (joinToks ts) := by
      simp only [searchRender, List.cons_append, List.nil_append, searchCapture,
        h1, h2, h3, h4, h5, h6, and_self, if_true]
      rw [tailOk_joinToks ts hall, hdrop]
      simp
    simp only [parse_search_ids, hsome]
    cases ts with
    | nil => rfl
    | cons t ts' =>
      rw [trimChars_joinToks t ts' (fun x hx => ⟨hne x hx, hall x hx⟩)]
      rw [splitOnSpace_tok_join t ts' hall]
      rw [filterMap_goodToks (t :: ts') h]
  · intro line hnone
    rw [parse_search_ids, hnone]

/-- Witness for the amended C2 at the claim's own instances, plus a
lowercase variant and a long-s variant exercising the case folding. -/
theorem parse_search_ids_marker_required_witness :
    parse_search_ids ( "* SEARCH 1 2 3".toList) = Except.ok [1, 2, 3] ∧
    parse_search_ids ( "* search 10".toList) = Except.ok [10] ∧
    parse_search_ids ( "* ſEARCH 7".toList) = Except.ok [7] ∧
    parse_search_ids ( "* SEARCH".toList) = Except.ok [] := by
  refine ⟨?_, ?_, ?_, ?_⟩
  · have h := (parse_search_ids_marker_required ['S', 'E', 'A', 'R', 'C', 'H']
      [['1'], ['2'], ['3']] (by decide) (by decide)).1
    have e1 : searchRender ['S', 'E', 'A', 'R', 'C', 'H'] [['1'], ['2'], ['3']] =
        ( "* SEARCH 1 2 3".toList) := by decide
    have e2 : ([['1'], ['2'], ['3']].map digitsVal) = [1, 2, 3] := by decide
    rw [e1, e2] at h
    exact h
  · have h := (parse_search_ids_marker_required ['s', 'e', 'a', 'r', 'c', 'h']
      [['1', '0']] (by decide) (by decide)).1
    have e1 : searchRender ['s', 'e', 'a', 'r', 'c', 'h'] [['1', '0']] =
        ( "* search 10".toList) := by decide
    have e2 : ([['1', '0']].map digitsVal) = [10] := by decide
    rw [e1, e2] at h
    exact h
  · have h := (parse_search_ids_marker_required ['ſ', 'E', 'A', 'R', 'C', 'H']
      [['7']] (by decide) (by decide)).1
    have e1 : searchRender ['ſ', 'E', 'A', 'R', 'C', 'H'] [['7']] =
        ( "* ſEARCH 7".toList) := by decide
    have e2 : ([['7']].map digitsVal) = [7] := by decide
    rw [e1, e2] at h
    exact h
  · have h := (parse_search_ids_marker_required ['S', 'E', 'A', 'R', 'C', 'H'] []
      (by decide) (by simp)).1
    have e1 : searchRender ['S', 'E', 'A', 'R', 'C', 'H'] [] = ( "* SEARCH".toList) := by
      decide
    rw [e1] at h
    exact h

/-- C9: on the empty buffer both fold mappers call the tokenizer before
any end-of-buffer check, and the tokenizer fails on empty input, so both
return a malformed-input error instead of an empty accumulator. -/
theorem fold_mappers_empty_invalid :
    parse_capabilities [] none = Except.error (Error.Parse (ParseError.Invalid [])) ∧
    parse_mailbox [] none = MOutcome.err (Error.Parse (ParseError.Invalid [])) :=
  ⟨rfl, rfl⟩

/-- The capability fold succeeds on a nonempty all-capability buffer
with a clean end, returning the accumulator extended by every record's
capability list in order. -/
theorem capsLoop_ok_all (resps : List Response) (acc : List String)
    (hne : resps ≠ []) (hall : ∀ r ∈ resps, isCapResp r = true) :
    capsLoop acc resps none = Except.ok ⟨acc ++ (resps.map capClist).flatten⟩ := by
  induction resps generalizing acc with
  | nil => exact absurd rfl hne
  | cons r rest ih =>
    obtain ⟨cs, rfl⟩ : ∃ cs, r = Response.Capabilities cs := by
      have := hall r (by simp)
      cases r <;> simp_all [isCapResp]
    cases rest with
    | nil => simp [capsLoop, capClist]
    | cons r2 rest2 =>
      have hstep : capsLoop acc (Response.Capabilities cs :: r2 :: rest2) none =
          capsLoop (acc ++ cs) (r2 :: rest2) none := rfl
      rw [hstep, ih (acc ++ cs) (by simp) (fun x hx => hall x (by simp [hx]))]
      simp [capClist]

/-- If the capability fold succeeds then the buffer ended cleanly, held
at least one record, every record was a capability record, and the
result is the accumulator extended by every record's capability list. -/
theorem capsLoop_ok_inv (resps : List Response) (acc : List String)
    (junk : Option (List Nat)) (c : Capabilities)
    (hok : capsLoop acc resps junk = Except.ok c) :
    junk = none ∧ resps ≠ [] ∧ (∀ r ∈ resps, isCapResp r = true) ∧
      c.caps = acc ++ (resps.map capClist).flatten := by
  induction resps generalizing acc with
  | nil =>
    cases junk with
    | none => exact absurd hok (by simp [capsLoop])
    | some bs => exact absurd hok (by simp [capsLoop])
  | cons r rest ih =>
    cases r with
    | Capabilities cs =>
      cases rest with
      | nil =>
        cases junk with
        | none =>
          have : Capabilities.mk (acc ++ cs) = c := by
            simpa [capsLoop] using hok
          refine ⟨rfl, by simp, by simp [isCapResp], ?_⟩
          rw [← this]
          simp [capClist]
        | some bs =>
          have hstep : capsLoop acc [Response.Capabilities cs] (some bs) =
              capsLoop (acc ++ cs) [] (some bs) := rfl
          rw [hstep] at hok
          exact absurd hok (by simp [capsLoop])
      | cons r2 rest2 =>
        have hstep : capsLoop acc (Response.Capabilities cs :: r2 :: rest2) junk =
            capsLoop (acc ++ cs) (r2 :: rest2) junk := rfl
        rw [hstep] at hok
        obtain ⟨hj, _, hall, hcaps⟩ := ih (acc ++ cs) hok
        refine ⟨hj, by simp, ?_, ?_⟩
        · intro x hx
          rcases List.mem_cons.mp hx with hx1 | hx2
          · rw [hx1]; rfl
          · exact hall x hx2
        · rw [hcaps]; simp [capClist]
    | Data s code => exact absurd hok (by simp [capsLoop])
    | Done s => exact absurd hok (by simp [capsLoop])
    | Continue => exact absurd hok (by simp [capsLoop])
    | Expunge n => exact absurd hok (by simp [capsLoop])
    | Fetch num attrs => exact absurd hok (by simp [capsLoop])
    | MailboxData d => exact absurd hok (by simp [capsLoop])

/-- C5 amended: parse_capabilities succeeds exactly when the buffer
holds AT LEAST ONE record, every record is a capability record and the
tokenizer consumes the whole buffer (the original claim wrongly counts
the empty buffer as a success); on success the membership test is true
for exactly the capability tokens present across all records,
case-sensitively, regardless of duplicate or split-record
occurrences. -/
theorem parse_capabilities_success_iff (resps : List Response) (junk : Option (List Nat)) :
    ((∃ c, parse_capabilities resps junk = Except.ok c) ↔
      (junk = none ∧ resps ≠ [] ∧ ∀ r ∈ resps, isCapResp r = true)) ∧
    (∀ c, parse_capabilities resps junk = Except.ok c → ∀ t,
      (c.has t = true ↔ ∃ cs, Response.Capabilities cs ∈ resps ∧ t ∈ cs)) := by
  constructor
  · constructor
    · rintro ⟨c, hc⟩
      obtain ⟨h1, h2, h3, _⟩ := capsLoop_ok_inv resps [] junk c hc
      exact ⟨h1, h2, h3⟩
    · rintro ⟨hnone, hne, hall⟩
      subst hnone
      exact ⟨_, capsLoop_ok_all resps [] hne hall⟩
  · intro c hc t
    obtain ⟨_, _, _, hcaps⟩ := capsLoop_ok_inv resps [] junk c hc
    rw [Capabilities.has, hcaps, show (List.contains (([] : List String) ++
      (resps.map capClist).flatten) t = true) =
        (t ∈ (([] : List String) ++ (resps.map capClist).flatten)) from
      propext List.elem_iff]
    simp only [List.nil_append, List.mem_flatten, List.mem_map]
    constructor
    · rintro ⟨l, ⟨r, hr, rfl⟩, ht⟩
      cases r with
      | Capabilities cs => exact ⟨cs, hr, ht⟩
      | Data s code => simp [capClist] at ht
      | Done s => simp [capClist] at ht
      | Continue => simp [capClist] at ht
      | Expunge n => simp [capClist] at ht
      | Fetch num attrs => simp [capClist] at ht
      | MailboxData d => simp [capClist] at ht
    · rintro ⟨cs, hmem, ht⟩
      exact ⟨cs, ⟨Response.Capabilities cs, hmem, rfl⟩, ht⟩

/-- Witness for the amended C5 at a concrete capability buffer. -/
theorem parse_capabilities_success_iff_witness :
    parse_capabilities [Response.Capabilities ["IMAP4rev1", "STARTTLS"]] none =
      Except.ok ⟨["IMAP4rev1", "STARTTLS"]⟩ ∧
    (Capabilities.mk ["IMAP4rev1", "STARTTLS"]).has ( "STARTTLS") = true := by
  refine ⟨rfl, ?_⟩
  exact ((parse_capabilities_success_iff [Response.Capabilities ["IMAP4rev1", "STARTTLS"]]
      none).2 ⟨["IMAP4rev1", "STARTTLS"]⟩ rfl ( "STARTTLS")).mpr
    ⟨["IMAP4rev1", "STARTTLS"], by simp, by simp⟩

/-- C5 counterexample: the empty buffer consists solely of capability
records (vacuously) and has no tokenizer failure, so the claim's
success condition holds for it, yet parse_capabilities returns an
Invalid error because its end-of-buffer check runs only after a first
record has been parsed. -/
theorem parse_capabilities_empty_invalid :
    parse_capabilities [] none = Except.error (Error.Parse (ParseError.Invalid [])) :=
  rfl

/-- C6: in the attribute fold of parse_fetches a later Uid, Rfc822,
Rfc822Header or BodySection attribute overwrites the field regardless of
the earlier attributes, while a later Flags attribute extends the
accumulated flag list. -/
theorem fetch_attr_overwrite (num : Nat) (attrs : List AttributeValue) (u : Nat)
    (r h b sec : Option String) (i : Option Nat) (fl : List String) :
    (buildFetch num (attrs ++ [AttributeValue.Uid u])).uid = some u ∧
    (buildFetch num (attrs ++ [AttributeValue.Rfc822 r])).rfc822 = r ∧
    (buildFetch num (attrs ++ [AttributeValue.Rfc822Header h])).rfc822_header = h ∧
    (buildFetch num (attrs ++ [AttributeValue.BodySection sec i b])).body = b ∧
    (buildFetch num (attrs ++ [AttributeValue.Flags fl])).flags =
      (buildFetch num attrs).flags ++ fl := by
  simp [buildFetch, List.foldl_append, foldAttr]

/-- C10: an attribute value of any kind other than Flags, Uid, Rfc822,
Rfc822Header or BodySection falls into the wildcard arm of the fold in
parse_fetches: it leaves the accumulated Fetch unchanged, and removing
it from the attribute list does not change the built Fetch. -/
theorem fetch_attr_unhandled_noop (f : Fetch) (a : AttributeValue) (num : Nat)
    (l1 l2 : List AttributeValue) (hu : handledAttr a = false) :
    foldAttr f a = f ∧ buildFetch num (l1 ++ a :: l2) = buildFetch num (l1 ++ l2) := by
  have hnoop : ∀ g : Fetch, foldAttr g a = g := by
    intro g
    cases a <;> simp_all [handledAttr, foldAttr]
  refine ⟨hnoop f, ?_⟩
  simp [buildFetch, List.foldl_append, hnoop]

/-- Witness for C10 at a concrete unhandled attribute. -/
theorem fetch_attr_unhandled_noop_witness :
    foldAttr ⟨1, [], none, none, none, none⟩ AttributeValue.Envelope =
      ⟨1, [], none, none, none, none⟩ ∧
    buildFetch 1 ([AttributeValue.Uid 5] ++ AttributeValue.Envelope :: []) =
      buildFetch 1 ([AttributeValue.Uid 5] ++ []) :=
  fetch_attr_unhandled_noop ⟨1, [], none, none, none, none⟩ AttributeValue.Envelope 1
    [AttributeValue.Uid 5] [] rfl

/-- C7: a status-line record whose completion marker is anything other
than Ok makes parse_mailbox's loop hit `unreachable!()` — the fault
outcome, which is a different constructor from every returned snapshot
and every returned recoverable error. -/
theorem parse_mailbox_non_ok_fault (mb : Mailbox) (s : Status) (code : Option ResponseCode)
    (rest : List Response) (junk : Option (List Nat)) (hs : s ≠ Status.Ok) :
    mailboxLoop mb (Response.Data s code :: rest) junk = MOutcome.fault ∧
    (∀ m, MOutcome.fault ≠ MOutcome.ok m) ∧ (∀ e, MOutcome.fault ≠ MOutcome.err e) := by
  refine ⟨?_, fun m hm => MOutcome.noConfusion hm, fun e he => MOutcome.noConfusion he⟩
  cases s with
  | Ok => exact absurd rfl hs
  | No => rfl
  | Bad => rfl
  | PreAuth => rfl
  | Bye => rfl

/-- Witness for C7 at a concrete NO status line. -/
theorem parse_mailbox_non_ok_fault_witness :
    mailboxLoop {} [Response.Data Status.No none] none = MOutcome.fault :=
  (parse_mailbox_non_ok_fault {} Status.No none [] none (by decide)).1

/-- C3: when the classifier hands a record back as Not, the walker
parse_many silently discards it and continues exactly when the record
is one of the four unilateral kinds (recent update, exists update,
fetch push, expunge); otherwise the whole call aborts at once with an
Unexpected error carrying that record. -/
theorem parse_many_unrelated_filter {T : Type} (map : Response → MapOrNot T)
    (r r' : Response) (rest : List Response) (junk : Option (List Nat))
    (hmap : map r = MapOrNot.Not r') :
    (isUnilateralKind r' → parse_many map (r :: rest) junk = parse_many map rest junk) ∧
    (¬ isUnilateralKind r' →
      parse_many map (r :: rest) junk = Except.error (Error.Unexpected r')) := by
  constructor
  · intro hu
    rw [← unilateral_iff] at hu
    simp [parse_many, hmap, hu]
  · intro hu
    have hfalse : unilateral r' = false := by
      rcases hb : unilateral r' with _ | _
      · rfl
      · exact absurd ((unilateral_iff r').mp hb) hu
    simp [parse_many, hmap, hfalse]

/-- Witness for C3: a lone expunge record is skipped (empty result), a
lone continuation record aborts with an Unexpected error. -/
theorem parse_many_unrelated_filter_witness :
    parse_many notStep [Response.Expunge 7] none = Except.ok [] ∧
    parse_many notStep [Response.Continue] none =
      Except.error (Error.Unexpected Response.Continue) := by
  constructor
  · exact ((parse_many_unrelated_filter notStep (Response.Expunge 7) (Response.Expunge 7)
      [] none rfl).1 (Or.inr (Or.inr (Or.inr ⟨7, rfl⟩)))).trans rfl
  · exact (parse_many_unrelated_filter notStep Response.Continue Response.Continue
      [] none rfl).2 (by simp [isUnilateralKind])

/-- C8: the empty buffer gives both list mappers a successful empty
result; a buffer of only unilateral records (recent, exists, fetch — the
latter for the name mapper only — and expunge) likewise gives a
successful empty result, not an error. -/
theorem list_mappers_empty_ok :
    parse_names [] none = Except.ok [] ∧
    parse_fetches [] none = Except.ok [] ∧
    (∀ resps : List Response, (∀ r ∈ resps, unilateral r = true) →
      parse_names resps none = Except.ok []) ∧
    (∀ resps : List Response,
      (∀ r ∈ resps, unilateral r = true ∧ isFetchResp r = false) →
      parse_fetches resps none = Except.ok []) := by
  refine ⟨rfl, rfl, ?_, ?_⟩
  · intro resps
    induction resps with
    | nil => intro _; rfl
    | cons r rest ih =>
      intro h
      have hr := h r (List.mem_cons_self r rest)
      have hrest := ih fun x hx => h x (List.mem_cons_of_mem r hx)
      have hstep : nameStep r = MapOrNot.Not r := by
        cases r with
        | MailboxData d => cases d <;> simp_all [unilateral, nameStep]
        | Capabilities cs => rfl
        | Data s c => rfl
        | Done s => rfl
        | Continue => rfl
        | Expunge n => rfl
        | Fetch num attrs => rfl
      calc parse_names (r :: rest) none
        = parse_names rest none := by simp [parse_names, parse_many, hstep, hr]
        _ = Except.ok [] := hrest
  · intro resps
    induction resps with
    | nil => intro _; rfl
    | cons r rest ih =>
      intro h
      have hr := (h r (List.mem_cons_self r rest)).1
      have hnf := (h r (List.mem_cons_self r rest)).2
      have hrest := ih fun x hx => h x (List.mem_cons_of_mem r hx)
      have hstep : fetchStep r = MapOrNot.Not r := by
        cases r <;> simp_all [isFetchResp, fetchStep]
      calc parse_fetches (r :: rest) none
        = parse_fetches rest none := by simp [parse_fetches, parse_many, hstep, hr]
        _ = Except.ok [] := hrest

/-- Witness for C8 at concrete unilateral-only buffers. -/
theorem list_mappers_empty_ok_witness :
    parse_names [Response.Expunge 3] none = Except.ok [] ∧
    parse_fetches [Response.MailboxData (MailboxDatum.Recent 2)] none = Except.ok [] := by
  constructor
  · exact list_mappers_empty_ok.2.2.1 [Response.Expunge 3] (by decide)
  · exact list_mappers_empty_ok.2.2.2 [Response.MailboxData (MailboxDatum.Recent 2)]
      (by decide)

/-- C4: whenever parse_fetches accepts a buffer, it returns exactly one
Fetch per fetch record of the buffer: interleaved unilateral records
are dropped without changing the count. -/
theorem parse_fetches_count (resps : List Response) (junk : Option (List Nat))
    (fs : List Fetch) (hok : parse_fetches resps junk = Except.ok fs) :
    fs.length = (resps.filter isFetchResp).length := by
  induction resps generalizing fs with
  | nil =>
    cases junk with
    | none =>
      have : fs = [] := by
        have h := hok
        simp only [parse_fetches, parse_many] at h
        exact (Except.ok.injEq _ _).mp h.symm
      simp [this]
    | some bs => exact absurd hok (by simp [parse_fetches, parse_many])
  | cons r rest ih =>
    cases r with
    | Fetch num attrs =>
      have hrec := hok
      simp only [parse_fetches, parse_many, fetchStep] at hrec
      cases hr2 : parse_many fetchStep rest junk with
      | ok ts =>
        rw [hr2] at hrec
        simp only [Except.ok.injEq] at hrec
        subst hrec
        simpa [isFetchResp] using ih ts (by simpa [parse_fetches] using hr2)
      | error e =>
        rw [hr2] at hrec
        exact absurd hrec (by simp)
    | MailboxData d =>
      cases d with
      | Exists n =>
        have hstep :
            parse_fetches (Response.MailboxData (MailboxDatum.Exists n) :: rest) junk =
              parse_fetches rest junk := rfl
        rw [hstep] at hok
        simpa [isFetchResp] using ih fs hok
      | Recent n =>
        have hstep :
            parse_fetches (Response.MailboxData (MailboxDatum.Recent n) :: rest) junk =
              parse_fetches rest junk := rfl
        rw [hstep] at hok
        simpa [isFetchResp] using ih fs hok
      | Status =>
        exact absurd hok (by simp [parse_fetches, parse_many, fetchStep, unilateral])
      | Flags flags =>
        exact absurd hok (by simp [parse_fetches, parse_many, fetchStep, unilateral])
      | List flags delim name =>
        exact absurd hok (by simp [parse_fetches, parse_many, fetchStep, unilateral])
      | SubList flags delim name =>
        exact absurd hok (by simp [parse_fetches, parse_many, fetchStep, unilateral])
    | Expunge n =>
      have hstep :
          parse_fetches (Response.Expunge n :: rest) junk = parse_fetches rest junk := rfl
      rw [hstep] at hok
      simpa [isFetchResp] using ih fs hok
    | Capabilities cs =>
      exact absurd hok (by simp [parse_fetches, parse_many, fetchStep, unilateral])
    | Data s c =>
      exact absurd hok (by simp [parse_fetches, parse_many, fetchStep, unilateral])
    | Done s =>
      exact absurd hok (by simp [parse_fetches, parse_many, fetchStep, unilateral])
    | Continue =>
      exact absurd hok (by simp [parse_fetches, parse_many, fetchStep, unilateral])

/-- Witness for C4: one fetch record followed by one recent-count record
yields exactly one Fetch. -/
theorem parse_fetches_count_witness :
    ([⟨37, [], some 74, none, none, none⟩] : List Fetch).length =
      (([Response.Fetch 37 [AttributeValue.Uid 74],
         Response.MailboxData (MailboxDatum.Recent 1)].filter isFetchResp)).length :=
  parse_fetches_count
    [Response.Fetch 37 [AttributeValue.Uid 74],
     Response.MailboxData (MailboxDatum.Recent 1)] none
    [⟨37, [], some 74, none, none, none⟩] rfl

end Imap
